import Mathlib

set_option autoImplicit false

attribute [local semireducible] Rat.add Rat.mul Rat.inv Rat.sub Rat.ofScientific

namespace RBudget

/-!
Shallow embedding of the rbudget simulation engine (src/account.rs,
src/transaction.rs, src/simulation.rs, src/util.rs).

Modelling conventions:
* `Currency` (the arbitrary-precision decimal currency type, held in minor
  units by `val.value()`) is modelled as `Int`, counting pennies exactly.
* The `f64` detour of `util.rs` (`to_f64` divides the minor-unit value by
  100, `to_currency` formats with two decimal places and re-parses) is
  modelled with exact rational arithmetic `ℚ`; the two-decimal rounding of
  Rust's `format!` is modelled as rounding to the nearest penny.  Every
  concrete number appearing in this development is far from a rounding tie
  and far from the precision limit of `f64`, so the rational model and the
  floating-point code agree on all of them.
* `chrono::NaiveDate` is modelled as a year/month/day record in the
  proleptic Gregorian calendar, restricted to positive years (all dates in
  the repository are in the 21st century).  Its `Ord` instance is
  chronological order, i.e. lexicographic on (year, month, day) for valid
  dates; `weekday()` equality is equality of the day count modulo 7;
  `ordinal()` is the 1-based day of the year; adding `Days::new(1)` is the
  calendar successor.
* `HashMap` values are modelled as association lists of key/value pairs
  (the map's entries); `get`/`get_mut` is `alookup`, in-place mutation of
  an entry is `aset`, and iteration over entries is structural recursion
  over the list.
* A Rust `panic!` (the `unwrap()` calls in `SimulationIterator::next`) is
  modelled as `Option.none`.
-/

/-- Currency is an exact count of pennies (the minor unit). -/
abbrev Currency := Int

/-- Translation of `util::to_f64`: the minor-unit value divided by 100. -/
def to_f64 (c : Currency) : ℚ := (c : ℚ) / 100

/-- Translation of `util::to_currency`: format with two decimal places and
re-parse, i.e. round to the nearest penny. -/
def to_currency (q : ℚ) : Currency := ⌊q * 100 + 1 / 2⌋

/-- Translation of `AccountID` (account.rs): a simple unique ID. -/
structure AccountID where
  id_val : Nat
deriving DecidableEq

/-- Proleptic Gregorian calendar date, the model of `chrono::NaiveDate`. -/
structure Date where
  year : Nat
  month : Nat
  day : Nat
deriving DecidableEq

/-- Gregorian leap-year rule. -/
def isLeapYear (y : Nat) : Bool := y % 4 == 0 && (y % 100 != 0 || y % 400 == 0)

/-- Length of a month in a given year. -/
def daysInMonth (y m : Nat) : Nat :=
  if m == 2 then (if isLeapYear y then 29 else 28)
  else if m == 4 || m == 6 || m == 9 || m == 11 then 30
  else 31

/-- Days in year `y` strictly before month `m`. -/
def daysBeforeMonth (y m : Nat) : Nat :=
  ((List.range (m - 1)).map (fun i => daysInMonth y (i + 1))).sum

/-- Model of `chrono`'s `ordinal()`: the 1-based day of the year. -/
def Date.ordinal (d : Date) : Nat := daysBeforeMonth d.year d.month + d.day

/-- Days strictly before January 1st of year `y`, counting from year 1. -/
def daysBeforeYear (y : Nat) : Nat :=
  365 * (y - 1) + ((y - 1) / 4 - (y - 1) / 100) + (y - 1) / 400

/-- Absolute day count of a date (rata die). -/
def Date.dayNumber (d : Date) : Nat := daysBeforeYear d.year + d.ordinal

/-- Model of `chrono`'s `weekday()`: only its equality test is used by the
code, and two dates share a weekday iff their day counts agree modulo 7. -/
def Date.weekday (d : Date) : Nat := d.dayNumber % 7

/-- Calendar validity of a date record (a `chrono::NaiveDate` always
satisfies this). -/
def Date.valid (d : Date) : Bool :=
  decide (1 ≤ d.year) && decide (1 ≤ d.month) && decide (d.month ≤ 12) &&
    decide (1 ≤ d.day) && decide (d.day ≤ daysInMonth d.year d.month)

/-- Chronological strict order on dates: lexicographic on (year, month, day). -/
def Date.blt (a b : Date) : Bool :=
  decide (a.year < b.year) ||
    (decide (a.year = b.year) &&
      (decide (a.month < b.month) ||
        (decide (a.month = b.month) && decide (a.day < b.day))))

/-- Chronological non-strict order on dates. -/
def Date.ble (a b : Date) : Bool := Date.blt a b || decide (a = b)

/-- Translation of `date + Days::new(1)`: the next calendar day. -/
def Date.succ (d : Date) : Date :=
  if d.day < daysInMonth d.year d.month then ⟨d.year, d.month, d.day + 1⟩
  else if d.month < 12 then ⟨d.year, d.month + 1, 1⟩
  else ⟨d.year + 1, 1, 1⟩

/-- Translation of `AccountSpec` (account.rs); the `f64` rate fields are
modelled as exact rationals. -/
structure AccountSpec where
  name : String
  initial_value : Currency
  interest : ℚ
  out_charge : ℚ
  in_charge : ℚ
deriving DecidableEq

/-- Translation of `AccountSpec::source`. -/
def AccountSpec.source (s : AccountSpec) (value out : Currency) : Currency :=
  value - to_currency (to_f64 out * (1 + s.out_charge))

/-- Translation of `AccountSpec::sink`. -/
def AccountSpec.sink (s : AccountSpec) (value in_ : Currency) : Currency :=
  value + to_currency (to_f64 in_ * (1 - s.in_charge))

/-- Translation of `AccountSpec::update`. -/
def AccountSpec.update (s : AccountSpec) (value : Currency) : Currency :=
  to_currency (to_f64 value * (1 + s.interest / 365))

/-- Translation of `util::DateInterval`. -/
inductive DateInterval where
  | Daily
  | Weekly
  | Monthly
  | Yearly
deriving DecidableEq

/-- Translation of `Transaction` (transaction.rs); the private `end` field
is named `end_` because `end` is a Lean keyword. -/
structure Transaction where
  value : Currency
  source : AccountID
  sink : AccountID
  start : Date
  rpt : Option DateInterval
  end_ : Option Date
deriving DecidableEq

/-- Model of the derived `Default` implementation of `Transaction`
(`#[derive(.., Default, ..)]`): zero value, account ID 0 for both source
and sink, the Unix epoch date, and no repetition or end date. -/
def Transaction.default : Transaction :=
  ⟨0, ⟨0⟩, ⟨0⟩, ⟨1970, 1, 1⟩, none, none⟩

/-- Translation of `TransactionError` (transaction.rs). -/
inductive TransactionError where
  | InvalidAccountID (id : AccountID)
  | DuplicateAccountID (duplicate_id : AccountID)
  | InvalidStartEndDateCombination (start end_ : Date)
deriving DecidableEq

/-- Association list holding the entries of a `HashMap<AccountID, β>`. -/
abbrev AList (β : Type) := List (AccountID × β)

/-- Lookup of a key among a map's entries (`HashMap::get`). -/
def alookup {β : Type} (l : AList β) (k : AccountID) : Option β :=
  match l with
  | [] => none
  | p :: rest => if p.1 = k then some p.2 else alookup rest k

/-- In-place overwrite of the value stored at a key
(`*map.get_mut(&k).unwrap() = v`); absent keys are untouched. -/
def aset {β : Type} (l : AList β) (k : AccountID) (v : β) : AList β :=
  l.map (fun p => if p.1 = k then (k, v) else p)

/-- Translation of `HashMap::contains_key`. -/
def containsKey {β : Type} (l : AList β) (k : AccountID) : Bool :=
  (alookup l k).isSome

/-- Translation of `Simulation` (simulation.rs). -/
structure Simulation where
  accounts : AList AccountSpec
  transactions : List Transaction
  start : Date

/-- Translation of `Transaction::single`. -/
def Transaction.single (sim : Simulation) (value : Currency) (source sink : AccountID)
    (date : Date) : Except TransactionError Transaction :=
  if containsKey sim.accounts source = false then
    Except.error (TransactionError.InvalidAccountID source)
  else if containsKey sim.accounts sink = false then
    Except.error (TransactionError.InvalidAccountID sink)
  else if source = sink then
    Except.error (TransactionError.DuplicateAccountID source)
  else
    Except.ok { value := value, source := source, sink := sink,
                start := date, rpt := none, end_ := none }

/-- Translation of `Transaction::repeating` (the `?` operator is an
explicit match on the result of `single`). -/
def Transaction.repeating (sim : Simulation) (value : Currency) (source sink : AccountID)
    (start : Date) (rpt : DateInterval) : Except TransactionError Transaction :=
  match Transaction.single sim value source sink start with
  | Except.error e => Except.error e
  | Except.ok t => Except.ok { t with rpt := some rpt }

/-- Translation of `Transaction::repeating_until`. -/
def Transaction.repeating_until (sim : Simulation) (value : Currency)
    (source sink : AccountID) (start : Date) (rpt : DateInterval) (end_ : Date) :
    Except TransactionError Transaction :=
  match Transaction.repeating sim value source sink start rpt with
  | Except.error e => Except.error e
  | Except.ok t =>
    if Date.blt end_ start then
      Except.error (TransactionError.InvalidStartEndDateCombination start end_)
    else
      Except.ok { t with end_ := some end_ }

/-- Translation of `Transaction::occurs`. -/
def Transaction.occurs (t : Transaction) (date : Date) : Bool :=
  Date.ble t.start date &&
    (match t.rpt with
     | some DateInterval.Daily => true
     | some DateInterval.Weekly => decide (date.weekday = t.start.weekday)
     | some DateInterval.Monthly => decide (date.day = t.start.day)
     | some DateInterval.Yearly => decide (date.ordinal = t.start.ordinal)
     | none => decide (date = t.start)) &&
    (match t.end_ with
     | some e => Date.blt date e
     | none => true)

/-- Translation of `SimulationIterator` (simulation.rs). -/
structure SimulationIterator where
  sim : Simulation
  values : AList Currency
  date : Date

/-- Translation of `Simulation::iter`. -/
def Simulation.iter (sim : Simulation) : SimulationIterator :=
  { sim := sim
    values := sim.accounts.map (fun kv => (kv.1, kv.2.initial_value))
    date := sim.start }

/-- Translation of the `IntoIterator` implementation for `Simulation`. -/
def Simulation.intoIter (sim : Simulation) : SimulationIterator :=
  let accounts := sim.accounts
  { sim := sim
    values := accounts.map (fun kv => (kv.1, kv.2.initial_value))
    date := sim.start }

/-- Translation of the body of the transaction loop in
`SimulationIterator::next`: adjust the source entry, then the sink entry
(reading the sink's value after the source write, exactly as the code
does); a failing `unwrap()` is `none`. -/
def applyTransaction (accounts : AList AccountSpec) (values : AList Currency)
    (t : Transaction) : Option (AList Currency) :=
  match alookup accounts t.source with
  | none => none
  | some source_spec =>
    match alookup values t.source with
    | none => none
    | some source_val =>
      let values1 := aset values t.source (source_spec.source source_val t.value)
      match alookup accounts t.sink with
      | none => none
      | some sink_spec =>
        match alookup values1 t.sink with
        | none => none
        | some sink_val =>
          some (aset values1 t.sink (sink_spec.sink sink_val t.value))

/-- Sequential execution of the transaction loop of
`SimulationIterator::next` over a list of (already filtered) transactions. -/
def applyAll (accounts : AList AccountSpec) (values : AList Currency) :
    List Transaction → Option (AList Currency)
  | [] => some values
  | t :: ts =>
    match applyTransaction accounts values t with
    | none => none
    | some w => applyAll accounts w ts

/-- Translation of the per-account daily-update loop of
`SimulationIterator::next`: every snapshot entry is replaced by
`spec.update` of its value, the spec being looked up in the accounts map
(`unwrap()` modelled as `none`). -/
def updateAll (accounts : AList AccountSpec) :
    AList Currency → Option (AList Currency)
  | [] => some []
  | p :: rest =>
    match alookup accounts p.1 with
    | none => none
    | some spec =>
      match updateAll accounts rest with
      | none => none
      | some rest' => some ((p.1, spec.update p.2) :: rest')

/-- Translation of `SimulationIterator::next`: apply the transactions
occurring on the current date, apply the daily update to every snapshot
entry, advance the date by one day, and emit the snapshot with the new
date.  The returned iterator is the mutated `self`. -/
def SimulationIterator.next (it : SimulationIterator) :
    Option (SimulationIterator × (AList Currency × Date)) :=
  match applyAll it.sim.accounts it.values
      (it.sim.transactions.filter (fun t => t.occurs it.date)) with
  | none => none
  | some v1 =>
    match updateAll it.sim.accounts v1 with
    | none => none
    | some v2 =>
      some ({ sim := it.sim, values := v2, date := it.date.succ },
            (v2, it.date.succ))

/-- Iterate `next` a number of times, collecting the emitted pairs. -/
def runTrace (it : SimulationIterator) : Nat → Option (List (AList Currency × Date))
  | 0 => some []
  | n + 1 =>
    match it.next with
    | none => none
    | some (it', out) =>
      match runTrace it' n with
      | none => none
      | some tr => some (out :: tr)

/-- Spec-side description of one transaction's effect on the snapshot, read
as a map: the source entry is replaced by `source(current value,
transaction value)` and the sink entry by `sink(current value, transaction
value)`, the sink reading the snapshot as already mutated by the source
write. -/
def specApplyTx (accounts : AList AccountSpec) (f : AccountID → Option Currency)
    (t : Transaction) : AccountID → Option Currency :=
  let afterSource : AccountID → Option Currency := fun id =>
    if id = t.source then
      (alookup accounts t.source).bind
        (fun spec => (f t.source).map (fun v => spec.source v t.value))
    else f id
  fun id =>
    if id = t.sink then
      (alookup accounts t.sink).bind
        (fun spec => (afterSource t.sink).map (fun v => spec.sink v t.value))
    else afterSource id

/-- Spec-side description of the transaction phase of one step: every
transaction of the specification, taken in sequence order, whose occurrence
predicate holds for the current date is applied to the snapshot, each
reading the snapshot as mutated by the earlier ones. -/
def specStep1 (accounts : AList AccountSpec) (transactions : List Transaction)
    (date : Date) (f : AccountID → Option Currency) : AccountID → Option Currency :=
  transactions.foldl (fun g t => if t.occurs date then specApplyTx accounts g t else g) f

/-- Invariants that the spec asserts of every constructed transaction:
distinct source and sink, both known to the simulation, and an end date (if
any) not before the start date. -/
def Transaction.wf (sim : Simulation) (t : Transaction) : Prop :=
  t.source ≠ t.sink ∧
    containsKey sim.accounts t.source = true ∧
    containsKey sim.accounts t.sink = true ∧
    ∀ e, t.end_ = some e → Date.ble t.start e = true

/-- Account A of the end-to-end scenario of the spec: initial value 1000.00,
no interest, no charges. -/
def accountA : AccountSpec := ⟨"A", 100000, 0, 0, 0⟩

/-- Account B of the end-to-end scenario of the spec: initial value 500.00,
3 percent annual interest, no charges. -/
def accountB : AccountSpec := ⟨"B", 50000, 3 / 100, 0, 0⟩

/-- Single transaction of the end-to-end scenario: 500.00 from A to B, dated
one day after the simulation start so that it is evaluated during the second
step (the day about to elapse) and shows in the day-2 snapshot. -/
def txAB : Transaction := ⟨50000, ⟨0⟩, ⟨1⟩, ⟨2023, 2, 24⟩, none, none⟩

/-- End-to-end scenario simulation: accounts A and B and the single
transaction, starting 2023-02-23. -/
def simAB : Simulation :=
  ⟨[(⟨0⟩, accountA), (⟨1⟩, accountB)], [txAB], ⟨2023, 2, 23⟩⟩

/-- Account with an `out_charge` of minus one, as in the repository's
"Employer" sample account. -/
def employer : AccountSpec := ⟨"Employer", 0, 0, -1, 0⟩

/-- Account with an `out_charge` below minus one; its outgoing charge more
than cancels the withdrawn amount. -/
def bonusSpec : AccountSpec := ⟨"Bonus", 0, 0, -2, 0⟩

/-- Weekly transaction starting Wednesday 2023-02-22, with an end date, used
as a concrete witness transaction. -/
def txW : Transaction :=
  ⟨100, ⟨0⟩, ⟨1⟩, ⟨2023, 2, 22⟩, some DateInterval.Weekly, some ⟨2023, 3, 2⟩⟩

/-- Monthly transaction starting on the 31st, used as a concrete witness
transaction. -/
def txM : Transaction :=
  ⟨100, ⟨0⟩, ⟨1⟩, ⟨2023, 1, 31⟩, some DateInterval.Monthly, none⟩

end RBudget

namespace RBudget


theorem alookup_aset {β : Type} (l : AList β) (k k' : AccountID) (v : β) :
    alookup (aset l k v) k' =
      if k' = k then (alookup l k).map (fun _ => v) else alookup l k' := by
  induction l with
  | nil => simp [alookup, aset]
  | cons p rest ih =>
    simp only [aset, List.map_cons] at *
    by_cases hp : p.1 = k
    · rw [if_pos hp]
      by_cases hk : k' = k
      · subst hk
        simp [alookup, hp]
      · have h1 : ¬ k = k' := fun h => hk h.symm
        have h2 : ¬ p.1 = k' := fun h => hk (h.symm.trans hp)
        simp [alookup, h1, h2, ih, hk]
    · rw [if_neg hp]
      by_cases hk : k' = k
      · subst hk
        simp [alookup, hp, ih]
      · simp [alookup, hp, hk, ih]

theorem keys_aset {β : Type} (l : AList β) (k : AccountID) (v : β) :
    (aset l k v).map Prod.fst = l.map Prod.fst := by
  induction l with
  | nil => rfl
  | cons p rest ih =>
    simp only [aset, List.map_cons] at *
    by_cases hp : p.1 = k
    · simp [hp, ih]
    · simp [hp, ih]

theorem containsKey_iff_mem {β : Type} (l : AList β) (k : AccountID) :
    containsKey l k = true ↔ k ∈ l.map Prod.fst := by
  induction l with
  | nil => simp [containsKey, alookup]
  | cons p rest ih =>
    by_cases hp : p.1 = k
    · simp [containsKey, alookup, hp]
    · have h1 : ¬ k = p.1 := fun h => hp h.symm
      simp only [containsKey, alookup, if_neg hp, List.map_cons, List.mem_cons] at *
      simp [ih, h1]

theorem alookup_isSome_iff {β : Type} (l : AList β) (k : AccountID) :
    (alookup l k).isSome = true ↔ k ∈ l.map Prod.fst :=
  containsKey_iff_mem l k


theorem applyTransaction_spec (accounts : AList AccountSpec) (values : AList Currency)
    (t : Transaction)
    (hsrc : containsKey accounts t.source = true)
    (hsnk : containsKey accounts t.sink = true)
    (hkeys : values.map Prod.fst = accounts.map Prod.fst) :
    ∃ w, applyTransaction accounts values t = some w ∧
      w.map Prod.fst = values.map Prod.fst ∧
      ∀ id, alookup w id = specApplyTx accounts (alookup values) t id := by
  have hsrc' : ∃ s, alookup accounts t.source = some s := by
    simpa [containsKey, Option.isSome_iff_exists] using hsrc
  have hsnk' : ∃ s, alookup accounts t.sink = some s := by
    simpa [containsKey, Option.isSome_iff_exists] using hsnk
  obtain ⟨srcSpec, hss⟩ := hsrc'
  obtain ⟨snkSpec, hks⟩ := hsnk'
  have hvsrc : ∃ v, alookup values t.source = some v := by
    rw [← Option.isSome_iff_exists, alookup_isSome_iff, hkeys,
      ← containsKey_iff_mem]
    exact hsrc
  obtain ⟨vsrc, hvs⟩ := hvsrc
  have hvsnk : ∃ v, alookup values t.sink = some v := by
    rw [← Option.isSome_iff_exists, alookup_isSome_iff, hkeys,
      ← containsKey_iff_mem]
    exact hsnk
  obtain ⟨vsnk, hvk⟩ := hvsnk
  have hsnk1 : alookup (aset values t.source (srcSpec.source vsrc t.value)) t.sink =
      if t.sink = t.source then some (srcSpec.source vsrc t.value) else some vsnk := by
    rw [alookup_aset]
    by_cases h : t.sink = t.source
    · simp [h, hvs]
    · simp [h, hvk]
  refine ⟨aset (aset values t.source (srcSpec.source vsrc t.value)) t.sink
      (snkSpec.sink (if t.sink = t.source then srcSpec.source vsrc t.value else vsnk)
        t.value), ?_, ?_, ?_⟩
  · unfold applyTransaction
    rw [hss, hvs, hks]
    simp only
    rw [hsnk1]
    by_cases h : t.sink = t.source <;> simp [h]
  · rw [keys_aset, keys_aset]
  · intro id
    simp only [specApplyTx]
    rw [alookup_aset]
    by_cases h1 : id = t.sink
    · rw [if_pos h1, if_pos h1, hsnk1, hks]
      by_cases h2 : t.sink = t.source
      · simp [h2, hss, hvs]
      · simp [h2, hvk]
    · rw [if_neg h1, if_neg h1, alookup_aset]
      by_cases h2 : id = t.source
      · simp [h2, hss, hvs]
      · simp [h2]


theorem applyAll_spec (accounts : AList AccountSpec) (date : Date) (ts : List Transaction)
    (values : AList Currency)
    (htx : ∀ t ∈ ts, containsKey accounts t.source = true ∧ containsKey accounts t.sink = true)
    (hkeys : values.map Prod.fst = accounts.map Prod.fst) :
    ∃ w, applyAll accounts values (ts.filter (fun t => t.occurs date)) = some w ∧
      w.map Prod.fst = accounts.map Prod.fst ∧
      ∀ id, alookup w id = specStep1 accounts ts date (alookup values) id := by
  induction ts generalizing values with
  | nil => exact ⟨values, rfl, hkeys, fun id => rfl⟩
  | cons t ts ih =>
    have ht := htx t (List.mem_cons_self _ _)
    have hts : ∀ t' ∈ ts, containsKey accounts t'.source = true ∧
        containsKey accounts t'.sink = true :=
      fun t' h => htx t' (List.mem_cons_of_mem _ h)
    by_cases hocc : t.occurs date = true
    · obtain ⟨w1, hw1, hk1, hp1⟩ := applyTransaction_spec accounts values t ht.1 ht.2 hkeys
      obtain ⟨w, hw, hk, hp⟩ := ih w1 hts (hk1.trans hkeys)
      have hinit : alookup w1 = specApplyTx accounts (alookup values) t := funext hp1
      refine ⟨w, ?_, hk, ?_⟩
      · rw [List.filter_cons, if_pos (by simpa using hocc)]
        unfold applyAll
        rw [hw1]
        exact hw
      · intro id
        rw [hp id, hinit]
        simp [specStep1, hocc]
    · obtain ⟨w, hw, hk, hp⟩ := ih values hts hkeys
      refine ⟨w, ?_, hk, ?_⟩
      · rw [List.filter_cons, if_neg (by simpa using hocc)]
        exact hw
      · intro id
        rw [hp id]
        simp [specStep1, hocc]

theorem updateAll_spec (accounts : AList AccountSpec) (values : AList Currency)
    (hmem : ∀ p ∈ values, containsKey accounts p.1 = true) :
    ∃ w, updateAll accounts values = some w ∧
      w.map Prod.fst = values.map Prod.fst ∧
      ∀ id, alookup w id =
        (alookup values id).bind
          (fun v => (alookup accounts id).map (fun spec => spec.update v)) := by
  induction values with
  | nil => exact ⟨[], rfl, rfl, fun id => by simp [alookup]⟩
  | cons p rest ih =>
    have hp := hmem p (List.mem_cons_self _ _)
    obtain ⟨spec, hs⟩ : ∃ s, alookup accounts p.1 = some s := by
      simpa [containsKey, Option.isSome_iff_exists] using hp
    obtain ⟨w, hw, hk, hpt⟩ := ih (fun q hq => hmem q (List.mem_cons_of_mem _ hq))
    refine ⟨(p.1, spec.update p.2) :: w, ?_, ?_, ?_⟩
    · unfold updateAll
      rw [hs, hw]
    · simp [hk]
    · intro id
      by_cases h : p.1 = id
      · subst h
        simp [alookup, hs]
      · simp [alookup, h, hpt id]

theorem next_spec (it : SimulationIterator)
    (hkeys : it.values.map Prod.fst = it.sim.accounts.map Prod.fst)
    (htx : ∀ t ∈ it.sim.transactions, containsKey it.sim.accounts t.source = true ∧
      containsKey it.sim.accounts t.sink = true) :
    ∃ vals, it.next = some ({ sim := it.sim, values := vals, date := it.date.succ },
        (vals, it.date.succ)) ∧
      vals.map Prod.fst = it.sim.accounts.map Prod.fst ∧
      ∀ id spec, alookup it.sim.accounts id = some spec →
        alookup vals id =
          (specStep1 it.sim.accounts it.sim.transactions it.date (alookup it.values) id).map
            (fun v => spec.update v) := by
  obtain ⟨w1, hw1, hk1, hp1⟩ :=
    applyAll_spec it.sim.accounts it.date it.sim.transactions it.values htx hkeys
  have hmem : ∀ p ∈ w1, containsKey it.sim.accounts p.1 = true := by
    intro p hpm
    rw [containsKey_iff_mem, ← hk1]
    exact List.mem_map_of_mem Prod.fst hpm
  obtain ⟨w2, hw2, hk2, hp2⟩ := updateAll_spec it.sim.accounts w1 hmem
  refine ⟨w2, ?_, hk2.trans hk1, ?_⟩
  · unfold SimulationIterator.next
    rw [hw1]
    dsimp only
    rw [hw2]
  · intro id spec hsp
    rw [hp2 id, hsp, ← hp1 id]
    cases alookup w1 id <;> rfl

end RBudget

namespace RBudget

/-- Strict date order is irreflexive. -/
theorem Date.blt_irrefl (a : Date) : Date.blt a a = false := by
  simp [Date.blt]

/-- Totality of the chronological order: if `a < b` fails then `b ≤ a`. -/
theorem Date.ble_of_not_blt (a b : Date) (h : Date.blt a b = false) :
    Date.ble b a = true := by
  cases a with
  | mk ay am ad =>
    cases b with
    | mk by_ bm bd =>
      simp only [Date.blt, Date.ble, Date.mk.injEq, Bool.or_eq_true, Bool.and_eq_true,
        Bool.or_eq_false_iff, Bool.and_eq_false_iff, decide_eq_true_eq,
        decide_eq_false_iff_not] at *
      omega

/-- Every reachable iterator whose snapshot keys match the specification
produces a defined trace in which every emitted snapshot again has exactly
the specification's keys. -/
theorem runTrace_keys (sim : Simulation)
    (htx : ∀ t ∈ sim.transactions, containsKey sim.accounts t.source = true ∧
      containsKey sim.accounts t.sink = true) :
    ∀ (n : Nat) (it : SimulationIterator), it.sim = sim →
      it.values.map Prod.fst = sim.accounts.map Prod.fst →
      ∃ tr, runTrace it n = some tr ∧
        ∀ s ∈ tr, s.1.map Prod.fst = sim.accounts.map Prod.fst := by
  intro n
  induction n with
  | zero => exact fun it _ _ => ⟨[], rfl, by simp⟩
  | succ n ih =>
    intro it hs hk
    obtain ⟨vals, hnext, hkeys, _⟩ :=
      next_spec it (by rw [hs]; exact hk) (by rw [hs]; exact htx)
    have hkeys' : vals.map Prod.fst = sim.accounts.map Prod.fst := by
      rw [← hs]; exact hkeys
    obtain ⟨tr, htr, hall⟩ := ih ⟨it.sim, vals, it.date.succ⟩ hs hkeys'
    refine ⟨(vals, it.date.succ) :: tr, ?_, ?_⟩
    · simp only [runTrace, hnext, htr]
    · intro s hsm
      rcases List.mem_cons.mp hsm with h | h
      · rw [h]
        exact hkeys'
      · exact hall s h

/-- C1: one call to `next()` applies, in sequence order, every transaction
whose occurrence predicate holds for the current date (each reading the
snapshot as mutated by the earlier ones, the source entry becoming
`source(value, tx value)` and the sink entry `sink(value, tx value)`), then
applies `update` to the snapshot value of every account of the
specification, advances the date by exactly one calendar day, and emits the
pair (snapshot copy, new date). -/
theorem next_step_semantics (it : SimulationIterator)
    (hkeys : it.values.map Prod.fst = it.sim.accounts.map Prod.fst)
    (htx : ∀ t ∈ it.sim.transactions, containsKey it.sim.accounts t.source = true ∧
      containsKey it.sim.accounts t.sink = true) :
    ∃ vals, it.next = some ({ sim := it.sim, values := vals, date := it.date.succ },
        (vals, it.date.succ)) ∧
      ∀ id spec, alookup it.sim.accounts id = some spec →
        alookup vals id =
          (specStep1 it.sim.accounts it.sim.transactions it.date (alookup it.values) id).map
            (fun v => spec.update v) := by
  obtain ⟨vals, h1, _, h3⟩ := next_spec it hkeys htx
  exact ⟨vals, h1, h3⟩

/-- Witness for C1: the step semantics instantiated on the concrete
two-account scenario simulation. -/
theorem next_step_semantics_witness :
    (Simulation.iter simAB).values.map Prod.fst = simAB.accounts.map Prod.fst ∧
    (∀ t ∈ simAB.transactions, containsKey simAB.accounts t.source = true ∧
      containsKey simAB.accounts t.sink = true) ∧
    ∃ vals, (Simulation.iter simAB).next =
        some ({ sim := simAB, values := vals, date := ⟨2023, 2, 24⟩ },
          (vals, (⟨2023, 2, 24⟩ : Date))) ∧
      ∀ id spec, alookup simAB.accounts id = some spec →
        alookup vals id =
          (specStep1 simAB.accounts simAB.transactions ⟨2023, 2, 23⟩
            (alookup (Simulation.iter simAB).values) id).map (fun v => spec.update v) :=
  ⟨by decide, by decide, next_step_semantics (Simulation.iter simAB) (by decide) (by decide)⟩

/-- C2: `occurs(date)` is true iff `date ≥ start`, the repetition branch
holds (no repetition: `date = start`; Daily: always; Weekly: equal weekday;
Monthly: equal day of month; Yearly: equal ordinal), and any end date `E`
satisfies `date < E`; in particular `occurs(E)` is always false. -/
theorem occurs_characterization (t : Transaction) (d : Date) :
    (t.occurs d = true ↔
      (Date.ble t.start d = true ∧
        (match t.rpt with
         | some DateInterval.Daily => True
         | some DateInterval.Weekly => d.weekday = t.start.weekday
         | some DateInterval.Monthly => d.day = t.start.day
         | some DateInterval.Yearly => d.ordinal = t.start.ordinal
         | none => d = t.start) ∧
        (match t.end_ with
         | some e => Date.blt d e = true
         | none => True))) ∧
    (∀ e, t.end_ = some e → t.occurs e = false) := by
  obtain ⟨v, src, snk, st, rpt, en⟩ := t
  constructor
  · simp only [Transaction.occurs]
    rcases rpt with _ | i
    · cases en <;> simp [Bool.and_eq_true, decide_eq_true_eq, and_assoc]
    · cases i <;> cases en <;> simp [Bool.and_eq_true, decide_eq_true_eq, and_assoc]
  · intro e he
    simp only at he
    subst he
    simp [Transaction.occurs, Date.blt_irrefl]

/-- Witness for C2: the weekly transaction with end date 2023-03-02 does
not occur on its own end date. -/
theorem occurs_characterization_witness : txW.occurs ⟨2023, 3, 2⟩ = false :=
  (occurs_characterization txW ⟨2023, 3, 2⟩).2 ⟨2023, 3, 2⟩ rfl

/-- C3: the constructors validate, in order, source existence, sink
existence, source-sink distinctness and (for `repeating_until`) `end ≥
start`; the first failing check returns its error, a fully valid `single`
succeeds, `repeating` fails exactly when the underlying `single` fails, and
`repeating_until` fails exactly when `single` fails or `end < start`. -/
theorem constructors_validate (sim : Simulation) (v : Currency) (s k : AccountID)
    (d : Date) (rpt : DateInterval) (e : Date) :
    (Transaction.single sim v s k d =
      if containsKey sim.accounts s = false then
        Except.error (TransactionError.InvalidAccountID s)
      else if containsKey sim.accounts k = false then
        Except.error (TransactionError.InvalidAccountID k)
      else if s = k then
        Except.error (TransactionError.DuplicateAccountID s)
      else
        Except.ok ⟨v, s, k, d, none, none⟩) ∧
    (containsKey sim.accounts s = true → containsKey sim.accounts k = true → s ≠ k →
      Transaction.single sim v s k d = Except.ok ⟨v, s, k, d, none, none⟩) ∧
    (Transaction.repeating sim v s k d rpt =
      match Transaction.single sim v s k d with
      | Except.error err => Except.error err
      | Except.ok t => Except.ok { t with rpt := some rpt }) ∧
    ((∃ err, Transaction.repeating sim v s k d rpt = Except.error err) ↔
      (∃ err, Transaction.single sim v s k d = Except.error err)) ∧
    (Transaction.repeating_until sim v s k d rpt e =
      match Transaction.repeating sim v s k d rpt with
      | Except.error err => Except.error err
      | Except.ok t =>
        if Date.blt e d then
          Except.error (TransactionError.InvalidStartEndDateCombination d e)
        else Except.ok { t with end_ := some e }) ∧
    ((∃ err, Transaction.repeating_until sim v s k d rpt e = Except.error err) ↔
      ((∃ err, Transaction.single sim v s k d = Except.error err) ∨ Date.blt e d = true)) := by
  refine ⟨rfl, ?_, rfl, ?_, rfl, ?_⟩
  · intro h1 h2 h3
    simp [Transaction.single, h1, h2, h3]
  · cases hs : Transaction.single sim v s k d <;>
      simp [Transaction.repeating, hs]
  · cases hs : Transaction.single sim v s k d <;>
      by_cases he : Date.blt e d <;>
        simp [Transaction.repeating_until, Transaction.repeating, hs, he]

/-- Witness for C3: a fully valid `single` construction succeeds on the
concrete scenario simulation. -/
theorem constructors_validate_witness :
    Transaction.single simAB 50000 ⟨0⟩ ⟨1⟩ ⟨2023, 2, 24⟩ = Except.ok txAB :=
  (constructors_validate simAB 50000 ⟨0⟩ ⟨1⟩ ⟨2023, 2, 24⟩ DateInterval.Daily
      ⟨2023, 2, 24⟩).2.1 (by decide) (by decide) (by decide)

/-- C4 counterexample: on the two-account scenario the day-1 snapshot value
of B is 500.04 (50004 pennies), not the claimed 500.03, and the day-2 value
is 1000.12, not 1000.11. -/
theorem scenario_counterexample :
    runTrace (Simulation.iter simAB) 2 =
      some [([(⟨0⟩, 100000), (⟨1⟩, 50004)], ⟨2023, 2, 24⟩),
            ([(⟨0⟩, 50000), (⟨1⟩, 100012)], ⟨2023, 2, 25⟩)] ∧
      (50004 : Currency) ≠ 50003 ∧ (100012 : Currency) ≠ 100011 :=
  ⟨by decide, by decide, by decide⟩

/-- C4 amended: the day-1 snapshot is A = 1000.00, B = 500.04 and the day-2
snapshot is A = 500.00, B = 1000.12 (dates 2023-02-24 and 2023-02-25). -/
theorem scenario_amended :
    runTrace (Simulation.iter simAB) 2 =
      some [([(⟨0⟩, 100000), (⟨1⟩, 50004)], ⟨2023, 2, 24⟩),
            ([(⟨0⟩, 50000), (⟨1⟩, 100012)], ⟨2023, 2, 25⟩)] := by
  decide

/-- C5 counterexample: with `out_charge = -1` and a positive transferred
value the source value is unchanged, not strictly increased. -/
theorem negative_charge_counterexample :
    employer.out_charge = -1 ∧ employer.source 100000 50000 = 100000 ∧
      ¬ 100000 < employer.source 100000 50000 :=
  ⟨by decide, by decide, by decide⟩

/-- C5 amended: with `out_charge = -1` the bonus exactly cancels the
withdrawal, leaving the source value unchanged; for a transaction of
positive value the source value strictly increases exactly when
`out_charge < -1` and the rounded adjustment is negative. -/
theorem negative_charge_amended (spec : AccountSpec) (value out : Currency) :
    (spec.out_charge = -1 → spec.source value out = value) ∧
    (0 < out →
      (value < spec.source value out ↔
        (spec.out_charge < -1 ∧ to_currency (to_f64 out * (1 + spec.out_charge)) < 0))) := by
  constructor
  · intro h
    have h0 : to_f64 out * (1 + spec.out_charge) = 0 := by
      rw [h]; ring
    have hz : to_currency 0 = 0 := by decide
    rw [AccountSpec.source, h0, hz]
    exact sub_zero value
  · intro hout
    constructor
    · intro hlt
      have hadj : to_currency (to_f64 out * (1 + spec.out_charge)) < 0 := by
        rw [AccountSpec.source] at hlt
        linarith
      refine ⟨?_, hadj⟩
      have h1 : to_f64 out * (1 + spec.out_charge) * 100 + 1 / 2 < 0 := by
        have := Int.floor_lt.mp hadj
        push_cast at this
        linarith
      have hq : to_f64 out * (1 + spec.out_charge) < 0 := by linarith
      have hpos : (0 : ℚ) < to_f64 out := by
        rw [to_f64]
        have : (0 : ℚ) < (out : ℚ) := by exact_mod_cast hout
        positivity
      by_contra hge
      push_neg at hge
      have hge' : (0 : ℚ) ≤ 1 + spec.out_charge := by linarith
      nlinarith [mul_nonneg (le_of_lt hpos) hge']
    · rintro ⟨_, hadj⟩
      rw [AccountSpec.source]
      linarith

/-- Witness for C5 amended: an account with `out_charge = -2` strictly gains
from sourcing a transfer of 500.00, via the backward direction of the
characterization. -/
theorem negative_charge_amended_witness :
    (0 : Currency) < 50000 ∧ bonusSpec.out_charge < -1 ∧
      to_currency (to_f64 50000 * (1 + bonusSpec.out_charge)) < 0 ∧
      (100000 : Currency) < bonusSpec.source 100000 50000 :=
  ⟨by decide, by decide, by decide,
    ((negative_charge_amended bonusSpec 100000 50000).2 (by decide)).mpr
      ⟨by decide, by decide⟩⟩

/-- C6: a transaction built by `single` occurs exactly on its start date. -/
theorem single_occurs_iff_start (sim : Simulation) (v : Currency) (s k : AccountID)
    (d : Date) (t : Transaction) (h : Transaction.single sim v s k d = Except.ok t) :
    ∀ x : Date, t.occurs x = true ↔ x = d := by
  unfold Transaction.single at h
  split_ifs at h with h1 h2 h3
  injection h with h
  subst h
  intro x
  constructor
  · intro hx
    simp only [Transaction.occurs, Bool.and_eq_true, decide_eq_true_eq] at hx
    exact hx.1.2
  · rintro rfl
    simp [Transaction.occurs, Date.ble]

/-- Witness for C6: the concrete single transaction occurs on its start
date. -/
theorem single_occurs_iff_start_witness : txAB.occurs ⟨2023, 2, 24⟩ = true :=
  (single_occurs_iff_start simAB 50000 ⟨0⟩ ⟨1⟩ ⟨2023, 2, 24⟩ txAB rfl
    ⟨2023, 2, 24⟩).mpr rfl

/-- C7: a monthly transaction starting on the 31st never occurs on any
valid date lying in a month with fewer than 31 days. -/
theorem monthly_day31_never_in_short_month (t : Transaction) (d : Date)
    (hrpt : t.rpt = some DateInterval.Monthly) (h31 : t.start.day = 31)
    (hvalid : d.valid = true) (hshort : daysInMonth d.year d.month < 31) :
    t.occurs d = false := by
  have hday : d.day ≤ daysInMonth d.year d.month := by
    simp only [Date.valid, Bool.and_eq_true, decide_eq_true_eq] at hvalid
    exact hvalid.2
  have hne : d.day ≠ 31 := by omega
  simp [Transaction.occurs, hrpt, h31, hne]

/-- Witness for C7: the monthly transaction starting 2023-01-31 does not
occur on 2023-02-28 even though that date is after its start. -/
theorem monthly_day31_never_in_short_month_witness :
    Date.valid ⟨2023, 2, 28⟩ = true ∧ daysInMonth 2023 2 < 31 ∧
      txM.occurs ⟨2023, 2, 28⟩ = false :=
  ⟨by decide, by decide,
    monthly_day31_never_in_short_month txM ⟨2023, 2, 28⟩ rfl rfl (by decide) (by decide)⟩

/-- C8 counterexample: the derived `Default` implementation is part of the
public interface and yields a transaction whose source equals its sink,
violating the claimed invariant. -/
theorem default_transaction_invalid :
    Transaction.default.source = Transaction.default.sink ∧
      ¬ Transaction.default.source ≠ Transaction.default.sink :=
  ⟨rfl, fun h => h rfl⟩

/-- C8 amended: every transaction returned by one of the three constructors
satisfies the construction invariants (distinct existing accounts, end date
not before start); invalid transactions remain observable only through the
derived `Default` implementation or direct mutation of the public fields. -/
theorem constructed_transactions_wf (sim : Simulation) (v : Currency) (s k : AccountID)
    (d : Date) (rpt : DateInterval) (e : Date) (t : Transaction) :
    (Transaction.single sim v s k d = Except.ok t → Transaction.wf sim t) ∧
    (Transaction.repeating sim v s k d rpt = Except.ok t → Transaction.wf sim t) ∧
    (Transaction.repeating_until sim v s k d rpt e = Except.ok t → Transaction.wf sim t) := by
  have hsingle : ∀ t', Transaction.single sim v s k d = Except.ok t' →
      t' = ⟨v, s, k, d, none, none⟩ ∧ containsKey sim.accounts s = true ∧
        containsKey sim.accounts k = true ∧ s ≠ k := by
    intro t' h
    unfold Transaction.single at h
    split_ifs at h with h1 h2 h3
    injection h with h
    exact ⟨h.symm, by simpa using h1, by simpa using h2, h3⟩
  refine ⟨?_, ?_, ?_⟩
  · intro h
    obtain ⟨rfl, hs, hk, hne⟩ := hsingle t h
    exact ⟨hne, hs, hk, fun e' he' => by cases he'⟩
  · intro h
    unfold Transaction.repeating at h
    cases hs : Transaction.single sim v s k d with
    | error err => rw [hs] at h; cases h
    | ok t' =>
      rw [hs] at h
      injection h with h
      obtain ⟨rfl, hcs, hck, hne⟩ := hsingle t' hs
      subst h
      exact ⟨hne, hcs, hck, fun e' he' => by cases he'⟩
  · intro h
    unfold Transaction.repeating_until at h
    cases hr : Transaction.repeating sim v s k d rpt with
    | error err => rw [hr] at h; cases h
    | ok t' =>
      rw [hr] at h
      dsimp only at h
      split_ifs at h with he
      injection h with h
      subst h
      unfold Transaction.repeating at hr
      cases hs : Transaction.single sim v s k d with
      | error err => rw [hs] at hr; cases hr
      | ok t'' =>
        rw [hs] at hr
        injection hr with hr
        obtain ⟨rfl, hcs, hck, hne⟩ := hsingle t'' hs
        subst hr
        refine ⟨hne, hcs, hck, fun e' he' => ?_⟩
        injection he' with he'
        subst he'
        exact Date.ble_of_not_blt e d (by simpa using he)

/-- Witness for C8 amended: the concrete scenario transaction satisfies the
construction invariants. -/
theorem constructed_transactions_wf_witness : Transaction.wf simAB txAB :=
  (constructed_transactions_wf simAB 50000 ⟨0⟩ ⟨1⟩ ⟨2023, 2, 24⟩ DateInterval.Daily
      ⟨2023, 2, 24⟩ txAB).1 rfl

/-- C9: daily stepping is deterministic; the two iterator constructions of
the code (the `iter` factory and the `IntoIterator` implementation), driven
any number of steps from the same specification, emit identical (snapshot,
date) sequences. -/
theorem simulation_deterministic (sim : Simulation) (n : Nat) :
    runTrace (Simulation.iter sim) n = runTrace (Simulation.intoIter sim) n := rfl

/-- C10: when every transaction references existing accounts, the iterator's
snapshot is created with exactly one entry per specified account and every
step preserves that key set, so every emitted snapshot has exactly the
specification's account keys. -/
theorem snapshot_keys_invariant (sim : Simulation)
    (htx : ∀ t ∈ sim.transactions, containsKey sim.accounts t.source = true ∧
      containsKey sim.accounts t.sink = true) :
    (Simulation.iter sim).values.map Prod.fst = sim.accounts.map Prod.fst ∧
    ∀ n, ∃ tr, runTrace (Simulation.iter sim) n = some tr ∧
      ∀ s ∈ tr, s.1.map Prod.fst = sim.accounts.map Prod.fst := by
  have hinit : (Simulation.iter sim).values.map Prod.fst = sim.accounts.map Prod.fst := by
    show (sim.accounts.map (fun kv => (kv.1, kv.2.initial_value))).map Prod.fst =
      sim.accounts.map Prod.fst
    rw [List.map_map]
    rfl
  exact ⟨hinit, fun n => runTrace_keys sim htx n (Simulation.iter sim) rfl hinit⟩

/-- Witness for C10: the key-set invariant instantiated on the concrete
scenario simulation. -/
theorem snapshot_keys_invariant_witness :
    (∀ t ∈ simAB.transactions, containsKey simAB.accounts t.source = true ∧
      containsKey simAB.accounts t.sink = true) ∧
    ((Simulation.iter simAB).values.map Prod.fst = simAB.accounts.map Prod.fst ∧
      ∀ n, ∃ tr, runTrace (Simulation.iter simAB) n = some tr ∧
        ∀ s ∈ tr, s.1.map Prod.fst = simAB.accounts.map Prod.fst) :=
  ⟨by decide, snapshot_keys_invariant simAB (by decide)⟩

end RBudget
